import Mathlib

/-!
Shallow embedding of `arroyo-sql/src/operators.rs`: the aggregation
compilation core of a streaming SQL engine (row projections, one-phase
aggregate projections, and the two-phase aggregation derivations).

Definitions translated from the source keep the source's names.  External
collaborators that the source consumes but that are not part of the file
under analysis (the expressions module, the types module, the schemas
module, the datafusion type-coercion helpers and the
`arroyo_worker::operators::aggregating_window` runtime helpers) are
modelled from the spec and carry a doc comment saying so.

Panics in the source (`unimplemented!`, `todo!`, `unreachable!`,
`.expect(..)`) are modelled as `Except.error` carrying a `Failure` value
that records which kind of failure occurred; typed errors returned to the
caller through the fallible conversion boundary are a distinct `Failure`
constructor, so that "panic" and "typed failure" stay distinguishable.
-/

namespace Arroyo

/-- Modelled from the spec: the scalar data types of the external type
system (`arrow_schema::DataType`); only the cases this development
exercises. -/
inductive DataType where
  | int32
  | int64
  | uint64
  | float32
  | float64
  | boolean
  | utf8
  | timestamp
  deriving DecidableEq

/-- Modelled from the spec: a `TypeDef` from the types module (not under
src/): a scalar type with a nullability flag, or a record-schema case (an
ordered list of named, typed fields) with a nullability flag.  Record
fields are scalar-typed here, matching the spec invariant that record
types never nest as aggregate-input types. -/
inductive TypeDef where
  | dataType (d : DataType) (nullable : Bool)
  | structDef (name : Option String)
      (fields : List (String × Option String × DataType × Bool))
      (nullable : Bool)
  deriving DecidableEq

/-- Modelled from the spec: nullability flag of a `TypeDef`. -/
def TypeDef.isNullable : TypeDef → Bool
  | .dataType _ n => n
  | .structDef _ _ n => n

/-- Modelled from the spec: `TypeDef::with_nullity`, replacing the
nullability flag. -/
def TypeDef.with_nullity : TypeDef → Bool → TypeDef
  | .dataType d _, n => .dataType d n
  | .structDef nm f _, n => .structDef nm f n

/-- Modelled from the spec: a qualified field identifier — an optional
source-relation tag plus a name. -/
structure Column where
  relation : Option String
  name : String
  deriving DecidableEq

instance : Inhabited Column := ⟨⟨none, ""⟩⟩

/-- Modelled from the spec: the external scalar expression, consumed as a
black box that can report its output type; `body` abstracts the
expression's code. -/
structure Expression where
  body : Nat
  retType : TypeDef
  deriving DecidableEq

/-- Modelled from the spec: the expression's reported output type. -/
def Expression.return_type (e : Expression) : TypeDef := e.retType

/-- Modelled from the spec: the expression's reported nullability. -/
def Expression.nullable (e : Expression) : Bool := e.retType.isNullable

/-- Modelled from the spec: the closed set of aggregator kinds. -/
inductive Aggregator where
  | count
  | sum
  | min
  | max
  | avg
  | countDistinct
  deriving DecidableEq

/-- Modelled from the spec: serialization format tag carried by schemas;
out of scope, kept opaque. -/
inductive Format where
  | json
  | rawString
  deriving DecidableEq

/-- Modelled from the spec: one named, typed field of an output schema
(`StructField::new(name, relation, typ)` from the types module). -/
structure StructField where
  name : String
  relation : Option String
  typ : TypeDef
  deriving DecidableEq

instance : Inhabited StructField := ⟨⟨"", none, .dataType .int64 false⟩⟩

/-- Modelled from the spec: an output record schema (ordered fields plus
an optional name and format) from the types module. -/
structure StructDef where
  name : Option String
  fields : List StructField
  format : Option Format
  deriving DecidableEq

/-- Modelled from the spec: `StructDef::for_fields`, an anonymous,
format-free schema over the given fields. -/
def StructDef.for_fields (fields : List StructField) : StructDef :=
  ⟨none, fields, none⟩

/-- Modelled from the spec: the reserved window-marker type returned by
`window_type_def()` in the schemas module (not under src/): the internal
`Window` record carrying the window's bounds. -/
def window_type_def : TypeDef :=
  .structDef (some ("Window"))
    [("start_time", none, .timestamp, false), ("end_time", none, .timestamp, false)]
    false

instance {ε α : Type} [DecidableEq ε] [DecidableEq α] : DecidableEq (Except ε α)
  | .ok x, .ok y => decidable_of_iff (x = y) (by simp)
  | .ok _, .error _ => isFalse (by simp)
  | .error _, .ok _ => isFalse (by simp)
  | .error e, .error f => decidable_of_iff (e = f) (by simp)

/-- How a derivation in the source can fail: Rust panics
(`unimplemented!`, `todo!`, `unreachable!`, `.expect(..)`) versus a typed
error returned to the caller (`anyhow`).  The constructors record which
source failure site fired. -/
inductive Failure where
  | panicUnimplemented
  | panicTodo
  | panicNoTwoPhaseCountDistinct
  | panicNonScalarInput
  | panicSumReturnType
  | panicAvgReturnType
  | typedUnsupportedAggregator
  deriving DecidableEq

/-- Modelled from the spec: datafusion's `sum_return_type` numeric
promotion (third-party collaborator): integers widen to the 64-bit
integer of their signedness, floats widen to 64-bit float, other types
are rejected. -/
def sum_return_type : DataType → Option DataType
  | .int32 | .int64 => some .int64
  | .uint64 => some .uint64
  | .float32 | .float64 => some .float64
  | _ => none

/-- Modelled from the spec: datafusion's `avg_return_type` numeric
promotion (third-party collaborator): numeric types average as 64-bit
float, other types are rejected. -/
def avg_return_type : DataType → Option DataType
  | .int32 | .int64 | .uint64 | .float32 | .float64 => some .float64
  | _ => none

/-! ## Projection (source lines 14-131) -/

/-- Source `Projection`: ordered output columns paired with the expressions that
compute them, plus an optional serialization format. -/
structure Projection where
  field_names : List Column
  field_computations : List Expression
  format : Option Format

/-- Source `Projection::without_window`: drop every (name, computation) pair
whose computation's return type equals the reserved window marker type,
keeping the rest (and the format) unchanged.  The source enumerates the
computations and indexes `field_names` by position. -/
def Projection.without_window (p : Projection) : Projection :=
  let pairs := p.field_computations.enum.filterMap (fun ic =>
    let field_name := p.field_names.getD ic.1 default
    if window_type_def = ic.2.return_type then none
    else some (field_name, ic.2))
  { field_names := pairs.map Prod.fst
    field_computations := pairs.map Prod.snd
    format := p.format }

/-! ## Two-phase aggregation compiler (source lines 439-767), type level -/

/-- Source `TwoPhaseAggregation`: one aggregator applied to one incoming
expression. -/
structure TwoPhaseAggregation where
  incoming_expression : Expression
  aggregator : Aggregator
  deriving DecidableEq

/-- Source `TwoPhaseAggregation::aggregate_type_def` (source lines 450-465): the
non-null accumulator type — 64-bit integer for Count, the sum-promoted
input type for Sum and Avg, the input type itself for Min and Max.
Record-typed input is `unreachable!` and CountDistinct is
`unimplemented!` in the source; both are modelled as errors. -/
def TwoPhaseAggregation.aggregate_type_def (t : TwoPhaseAggregation) :
    Except Failure TypeDef :=
  match t.incoming_expression.return_type with
  | .structDef _ _ _ => .error .panicNonScalarInput
  | .dataType d _ =>
    match t.aggregator with
    | .count => .ok (TypeDef.dataType .int64 false)
    | .sum | .avg =>
      match sum_return_type d with
      | some s => .ok (TypeDef.dataType s false)
      | none => .error .panicSumReturnType
    | .min | .max => .ok (TypeDef.dataType d false)
    | .countDistinct => .error .panicUnimplemented

/-- Rendered Rust types appearing in the generated code (`syn::Type`):
scalar primitives, `usize`, `Option<..>`, 2- and 3-tuples, and
`BTreeMap<..,..>`. -/
inductive SynType where
  | prim (d : DataType)
  | usizeT
  | option (t : SynType)
  | tuple2 (a b : SynType)
  | tuple3 (a b c : SynType)
  | btreeMap (k v : SynType)
  | structName (n : Option String)
  deriving DecidableEq

/-- Modelled from the spec: `TypeDef::return_type()` from the types
module renders a nullable scalar as `Option<T>` and a non-nullable scalar
as the plain type. -/
def TypeDef.rustType : TypeDef → SynType
  | .dataType d false => .prim d
  | .dataType d true => .option (.prim d)
  | .structDef n _ false => .structName n
  | .structDef n _ true => .option (.structName n)

/-- Source `TwoPhaseAggregation::aggregate_type` (source lines 446-448): the
rendered accumulator type. -/
def TwoPhaseAggregation.aggregate_type (t : TwoPhaseAggregation) :
    Except Failure SynType :=
  match t.aggregate_type_def with
  | .error e => .error e
  | .ok ty => .ok ty.rustType

/-- Source `TwoPhaseAggregation::bin_type` (source lines 467-482): the partial
aggregation state type per (aggregator, input nullability). -/
def TwoPhaseAggregation.bin_type (t : TwoPhaseAggregation) :
    Except Failure SynType :=
  let input_nullable := t.incoming_expression.nullable
  match t.aggregate_type with
  | .error e => .error e
  | .ok aggregate_type =>
    match t.aggregator, input_nullable with
    | .count, _ => .ok (.prim .int64)
    | .sum, true | .min, true | .max, true => .ok (.option aggregate_type)
    | .sum, false | .min, false | .max, false => .ok aggregate_type
    | .avg, true => .ok (.option (.tuple2 (.prim .int64) aggregate_type))
    | .avg, false => .ok (.tuple2 (.prim .int64) aggregate_type)
    | .countDistinct, _ => .error .panicUnimplemented

/-- Source `TwoPhaseAggregation::mem_type` (source lines 603-620): the running
sliding-window state type per (aggregator, input nullability). -/
def TwoPhaseAggregation.mem_type (t : TwoPhaseAggregation) :
    Except Failure SynType :=
  let input_nullable := t.incoming_expression.nullable
  match t.aggregate_type with
  | .error e => .error e
  | .ok expr_type =>
    match t.aggregator, input_nullable with
    | .count, _ => .ok (.tuple2 (.prim .int64) (.prim .int64))
    | .sum, true => .ok (.tuple3 (.prim .int64) (.prim .int64) (.option expr_type))
    | .min, true | .max, true =>
      .ok (.tuple2 (.prim .int64) (.btreeMap expr_type .usizeT))
    | .sum, false => .ok (.tuple2 (.prim .int64) expr_type)
    | .min, false | .max, false => .ok (.btreeMap expr_type .usizeT)
    | .avg, true =>
      .ok (.tuple3 (.prim .int64) (.prim .int64)
        (.option (.tuple2 (.prim .int64) expr_type)))
    | .avg, false => .ok (.tuple2 (.prim .int64) expr_type)
    | .countDistinct, _ => .error .panicUnimplemented

/-- Source `TwoPhaseAggregation::return_type` (source lines 696-713): the final
output type — 64-bit integer, never null, for Count (and CountDistinct);
sum-promoted with the input's nullability for Sum; exactly the input's
type for Min and Max; avg-promoted with the input's nullability for
Avg. -/
def TwoPhaseAggregation.return_type (t : TwoPhaseAggregation) :
    Except Failure TypeDef :=
  match t.aggregator with
  | .count => .ok (.dataType .int64 false)
  | .sum =>
    match t.aggregate_type_def with
    | .error e => .error e
    | .ok ty => .ok (ty.with_nullity t.incoming_expression.nullable)
  | .min => .ok t.incoming_expression.return_type
  | .max => .ok t.incoming_expression.return_type
  | .avg =>
    match t.incoming_expression.return_type with
    | .structDef _ _ _ => .error .panicNonScalarInput
    | .dataType d n =>
      match avg_return_type d with
      | some r => .ok (.dataType r n)
      | none => .error .panicAvgReturnType
  | .countDistinct => .ok (.dataType .int64 false)

/-! ## Aggregate projections (source lines 133-220, 335-348) -/

/-- Modelled from the spec: an `AggregationExpression` from the
expressions module (not under src/) — one aggregator applied to one
producing expression. -/
structure AggregationExpression where
  producing_expression : Expression
  aggregator : Aggregator
  deriving DecidableEq

/-- Modelled from the spec: the aggregate function's return type is a
pure function of (aggregator, input type, input nullability), following
the same table as `TwoPhaseAggregation::return_type`. -/
def AggregationExpression.return_type (e : AggregationExpression) :
    Except Failure TypeDef :=
  TwoPhaseAggregation.return_type ⟨e.producing_expression, e.aggregator⟩

/-- Modelled from the spec: `AggregationExpression::allows_two_phase`
(expressions module, not under src/) — true iff the aggregator is not
CountDistinct. -/
def AggregationExpression.allows_two_phase (e : AggregationExpression) : Bool :=
  e.aggregator != Aggregator.countDistinct

/-- Modelled from the spec: the fallible conversion
`AggregationExpression -> TwoPhaseAggregation` (expressions module, not
under src/) — a typed failure exactly for CountDistinct, otherwise the
aggregator and its incoming expression carried over. -/
def AggregationExpression.try_into (e : AggregationExpression) :
    Except Failure TwoPhaseAggregation :=
  if e.aggregator = .countDistinct then .error .typedUnsupportedAggregator
  else .ok ⟨e.producing_expression, e.aggregator⟩

/-- Source `AggregateProjection`: ordered aggregate outputs plus ordered
grouping outputs (column, grouping code, type); the grouping code
(`syn::Expr`) is abstracted as an identifier. -/
structure AggregateProjection where
  aggregates : List (Column × AggregationExpression)
  group_bys : List (Column × Nat × TypeDef)

/-- Source `AggregateProjection::supports_two_phase` (source lines 192-197). -/
def AggregateProjection.supports_two_phase (p : AggregateProjection) : Bool :=
  p.aggregates.all (fun a => a.2.allows_two_phase)

/-- Build one output field per element in order, short-circuiting on the
first failure (the source's per-element `return_type()` panics are
propagated as errors). -/
def collect_fields {α : Type} (f : α → Except Failure StructField) :
    List α → Except Failure (List StructField)
  | [] => .ok []
  | x :: xs =>
    match f x with
    | .error e => .error e
    | .ok fld =>
      match collect_fields f xs with
      | .error e => .error e
      | .ok rest => .ok (fld :: rest)

/-- Source `AggregateProjection::output_struct` (source lines 140-153): one
field per aggregate output (name and relation from its column, the
aggregate's return type) followed by one field per grouping output.  The
source's `return_type()` panic sites are propagated as errors. -/
def AggregateProjection.output_struct (p : AggregateProjection) :
    Except Failure StructDef :=
  match collect_fields (fun a =>
      match a.2.return_type with
      | .error e => .error e
      | .ok field_type => .ok (StructField.mk a.1.name a.1.relation field_type))
    p.aggregates with
  | .error e => .error e
  | .ok fields =>
    .ok (StructDef.for_fields
      (fields ++ p.group_bys.map (fun g => StructField.mk g.1.name g.1.relation g.2.2)))

/-- Source `TwoPhaseAggregateProjection` (source lines 199-203). -/
structure TwoPhaseAggregateProjection where
  aggregates : List (Column × TwoPhaseAggregation)
  group_bys : List (Column × Nat × TypeDef)

/-- The per-aggregate half of `TryFrom<AggregateProjection>` (source
lines 208-213): convert each aggregate in order, short-circuiting on the
first failure, as the source's `collect::<Result<Vec<_>>>` does. -/
def tryFromAggregates :
    List (Column × AggregationExpression) →
      Except Failure (List (Column × TwoPhaseAggregation))
  | [] => .ok []
  | (c, e) :: rest =>
    match e.try_into with
    | .error err => .error err
    | .ok t =>
      match tryFromAggregates rest with
      | .error err => .error err
      | .ok ts => .ok ((c, t) :: ts)

/-- Source `TryFrom<AggregateProjection> for TwoPhaseAggregateProjection`
(source lines 205-220). -/
def TwoPhaseAggregateProjection.try_from (p : AggregateProjection) :
    Except Failure TwoPhaseAggregateProjection :=
  match tryFromAggregates p.aggregates with
  | .error err => .error err
  | .ok aggregates => .ok ⟨aggregates, p.group_bys⟩

/-- Source `TwoPhaseAggregateProjection::output_struct` (source lines 335-348):
same aggregates-then-groups schema as the one-phase projection. -/
def TwoPhaseAggregateProjection.output_struct (p : TwoPhaseAggregateProjection) :
    Except Failure StructDef :=
  match collect_fields (fun a =>
      match a.2.return_type with
      | .error e => .error e
      | .ok field_type => .ok (StructField.mk a.1.name a.1.relation field_type))
    p.aggregates with
  | .error e => .error e
  | .ok fields =>
    .ok (StructDef.for_fields
      (fields ++ p.group_bys.map (fun g => StructField.mk g.1.name g.1.relation g.2.2)))

/-! ## Semantics of the generated per-aggregate operations

The source generates specialized Rust code per concrete numeric value
type; the semantics below uses `Int` as the exact-arithmetic carrier for
input values and accumulators (the `as #aggregate_type` numeric casts in
the generated code are the identity on this carrier) and `Rat` for Avg's
float division. -/

/-- The semantic input type: a nullable input row carries `Option Int`,
a non-nullable one carries `Int`. -/
@[reducible] def InTy : Bool → Type
  | true => Option Int
  | false => Int

/-- The semantic bin (partial-state) type per (aggregator, input
nullability), following `TwoPhaseAggregation::bin_type`.  CountDistinct
has no bin (`unimplemented!` in the source); its carrier is `Unit`. -/
@[reducible] def BinTy : Aggregator → Bool → Type
  | .count, true => Int
  | .count, false => Int
  | .sum, true => Option Int
  | .sum, false => Int
  | .min, true => Option Int
  | .min, false => Int
  | .max, true => Option Int
  | .max, false => Int
  | .avg, true => Option (Int × Int)
  | .avg, false => Int × Int
  | .countDistinct, true => Unit
  | .countDistinct, false => Unit

/-- Semantics of `TwoPhaseAggregation::bin_syn_expr` (source lines
532-601): fold one input value into the current bin.  The surrounding
tuple code (`bin_merger_syn_expression`) passes `Some(current)` when a
bin already exists and `None` on the first row of a bin, so the first
argument is an optional bin.  The CountDistinct arm is
`unreachable!("no two phase for count distinct")` in the source. -/
def binFold : (a : Aggregator) → (n : Bool) → Option (BinTy a n) → InTy n → BinTy a n
  | .count, true, current_bin, x =>
    current_bin.getD 0 + (if x.isSome then 1 else 0)
  | .count, false, current_bin, _ => current_bin.getD 0 + 1
  | .sum, true, current_bin, x =>
    match current_bin.join, x with
    | some value, some addition => some (value + addition)
    | some value, none => some value
    | none, some addition => some addition
    | none, none => none
  | .sum, false, current_bin, x =>
    match current_bin with
    | some value => value + x
    | none => x
  | .min, true, current_bin, x =>
    match current_bin.join, x with
    | some value, some new_value => some (min value new_value)
    | some value, none => some value
    | none, some new_value => some new_value
    | none, none => none
  | .min, false, current_bin, x =>
    match current_bin with
    | some value => min value x
    | none => x
  | .max, true, current_bin, x =>
    match current_bin.join, x with
    | some value, some new_value => some (max value new_value)
    | some value, none => some value
    | none, some new_value => some new_value
    | none, none => none
  | .max, false, current_bin, x =>
    match current_bin with
    | some value => max value x
    | none => x
  | .avg, true, current_bin, x =>
    match current_bin.join, x with
    | some (count, sum), some value => some (count + 1, sum + value)
    | some cs, none => some cs
    | none, some value => some (1, value)
    | none, none => none
  | .avg, false, current_bin, x =>
    match current_bin with
    | some (count, sum) => (count + 1, sum + x)
    | none => (1, x)
  | .countDistinct, true, _, _ => ()
  | .countDistinct, false, _, _ => ()

/-- Semantics of `TwoPhaseAggregation::combine_bin_syn_expr` (source
lines 484-530): merge two already-folded bins.  The CountDistinct arm is
`unreachable!("no two phase for count distinct")` in the source. -/
def binCombine : (a : Aggregator) → (n : Bool) → BinTy a n → BinTy a n → BinTy a n
  | .count, true, current_bin, new_bin => current_bin + new_bin
  | .count, false, current_bin, new_bin => current_bin + new_bin
  | .sum, true, current_bin, new_bin =>
    match current_bin, new_bin with
    | some value, some addition => some (value + addition)
    | some value, none => some value
    | none, some addition => some addition
    | none, none => none
  | .sum, false, current_bin, new_bin => current_bin + new_bin
  | .min, true, current_bin, new_bin =>
    match current_bin, new_bin with
    | some value, some new_value => some (min value new_value)
    | some value, none => some value
    | none, some new_value => some new_value
    | none, none => none
  | .min, false, current_bin, new_bin => min current_bin new_bin
  | .max, true, current_bin, new_bin =>
    match current_bin, new_bin with
    | some value, some new_value => some (max value new_value)
    | some value, none => some value
    | none, some new_value => some new_value
    | none, none => none
  | .max, false, current_bin, new_bin => max current_bin new_bin
  | .avg, true, current_bin, new_bin =>
    match current_bin, new_bin with
    | some (current_count, current_sum), some (new_count, new_sum) =>
      some (current_count + new_count, current_sum + new_sum)
    | some cs, none => some cs
    | none, some cs => some cs
    | none, none => none
  | .avg, false, current_bin, new_bin =>
    (current_bin.1 + new_bin.1, current_bin.2 + new_bin.2)
  | .countDistinct, true, _, _ => ()
  | .countDistinct, false, _, _ => ()

/-- The semantic output type of the tumbling finalize per (aggregator,
input nullability). -/
@[reducible] def OutTy : Aggregator → Bool → Type
  | .count, true => Int
  | .count, false => Int
  | .sum, true => Option Int
  | .sum, false => Int
  | .min, true => Option Int
  | .min, false => Int
  | .max, true => Option Int
  | .max, false => Int
  | .avg, true => Option Rat
  | .avg, false => Rat
  | .countDistinct, true => Unit
  | .countDistinct, false => Unit

/-- Semantics of `TwoPhaseAggregation::bin_aggregating_expression`
(source lines 715-730): the tumbling finalize — the bin itself for
Count/Sum/Min/Max (`arg.clone()`), sum divided by count for Avg.  The
CountDistinct arms are `todo!()` in the source. -/
def finalizeBin : (a : Aggregator) → (n : Bool) → BinTy a n → OutTy a n
  | .count, true, arg => arg
  | .count, false, arg => arg
  | .sum, true, arg => arg
  | .sum, false, arg => arg
  | .min, true, arg => arg
  | .min, false, arg => arg
  | .max, true, arg => arg
  | .max, false, arg => arg
  | .avg, true, arg => arg.map (fun cs => (cs.2 : Rat) / (cs.1 : Rat))
  | .avg, false, arg => (arg.2 : Rat) / (arg.1 : Rat)
  | .countDistinct, true, _ => ()
  | .countDistinct, false, _ => ()

/-- Fold a whole batch of input rows into a bin, starting from the empty
state (`None`), as `bin_merger_syn_expression` does row by row; `none`
for an empty batch, where no bin tuple was ever created. -/
def foldAll (a : Aggregator) (n : Bool) (xs : List (InTy n)) : Option (BinTy a n) :=
  xs.foldl (fun b x => some (binFold a n b x)) none

/-- The projection-level lifting of bin-combine to possibly-absent bins,
as `combine_bin_syn_expr` at the tuple level does (`None => arg.clone()`
when no current bin exists). -/
def combineOpt (a : Aggregator) (n : Bool) :
    Option (BinTy a n) → Option (BinTy a n) → Option (BinTy a n)
  | some x, some y => some (binCombine a n x y)
  | some x, none => some x
  | none, y => y

/-- Finalize a possibly-absent bin; an absent bin produces no output. -/
def finalizeOpt (a : Aggregator) (n : Bool) (b : Option (BinTy a n)) :
    Option (OutTy a n) :=
  b.map (finalizeBin a n)

/-! ## The sliding-window memory-finalize dispatch (source lines 732-767) -/

/-- Which body `to_aggregating_syn_expression` generates per
(aggregator, input nullability): a call into
`arroyo_worker::operators::aggregating_window`, or the inlined Avg
division. -/
inductive AggregatingCall where
  | countAggregate
  | nullableSumAggregate
  | nonNullableSumAggregate
  | nullableMinHeapAggregate
  | nullableMaxHeapAggregate
  | nonNullableMinHeapAggregate
  | nonNullableMaxHeapAggregate
  | avgNullableInline
  | avgNonNullableInline
  deriving DecidableEq

/-- Source `TwoPhaseAggregation::to_aggregating_syn_expression` (source
lines 732-767), as the table of generated bodies.  The source eagerly
computes `self.aggregate_type()` (line 734), so a failing accumulator
type derivation (CountDistinct's `unimplemented!`, a record-typed or
non-promotable input) panics before the match; the CountDistinct arms'
own `unimplemented!()` (lines 764-765) sits behind that eager panic.
Note the `(Min, false)` arm (lines 748-750) calls
`non_nullable_max_heap_aggregate`, while `(Min, true)` calls
`nullable_min_heap_aggregate`. -/
def TwoPhaseAggregation.to_aggregating_call (t : TwoPhaseAggregation) :
    Except Failure AggregatingCall :=
  let input_nullable := t.incoming_expression.nullable
  match t.aggregate_type with
  | .error e => .error e
  | .ok _expr_type =>
    match t.aggregator, input_nullable with
    | .count, _ => .ok .countAggregate
    | .sum, true => .ok .nullableSumAggregate
    | .sum, false => .ok .nonNullableSumAggregate
    | .min, true => .ok .nullableMinHeapAggregate
    | .min, false => .ok .nonNullableMaxHeapAggregate
    | .max, true => .ok .nullableMaxHeapAggregate
    | .max, false => .ok .nonNullableMaxHeapAggregate
    | .avg, true => .ok .avgNullableInline
    | .avg, false => .ok .avgNonNullableInline
    | .countDistinct, _ => .error .panicUnimplemented

/-- The least key present (multiplicity > 0) in an ordered multiset,
represented as (key, multiplicity) entries. -/
def minKey : List (Int × Nat) → Option Int
  | [] => none
  | (k, c) :: rest =>
    let r := minKey rest
    if c = 0 then r
    else
      match r with
      | none => some k
      | some m => some (min k m)

/-- The greatest key present (multiplicity > 0) in an ordered multiset,
represented as (key, multiplicity) entries. -/
def maxKey : List (Int × Nat) → Option Int
  | [] => none
  | (k, c) :: rest =>
    let r := maxKey rest
    if c = 0 then r
    else
      match r with
      | none => some k
      | some m => some (max k m)

/-- Modelled from the spec: `nullable_min_heap_aggregate` from
`arroyo_worker::operators::aggregating_window` (not under src/) — the
least key currently present in the multiset half of the nullable Min/Max
memory `(i64, BTreeMap<K, usize>)`. -/
def nullable_min_heap_aggregate (arg : Int × List (Int × Nat)) : Option Int :=
  minKey arg.2

/-- Modelled from the spec: `nullable_max_heap_aggregate` from
arroyo_worker (not under src/) — the greatest key currently present. -/
def nullable_max_heap_aggregate (arg : Int × List (Int × Nat)) : Option Int :=
  maxKey arg.2

/-- Modelled from the spec: `non_nullable_min_heap_aggregate` from
arroyo_worker (not under src/) — the least key currently present in the
non-nullable Min/Max memory `BTreeMap<K, usize>`. -/
def non_nullable_min_heap_aggregate (arg : List (Int × Nat)) : Option Int :=
  minKey arg

/-- Modelled from the spec: `non_nullable_max_heap_aggregate` from
arroyo_worker (not under src/) — the greatest key currently present. -/
def non_nullable_max_heap_aggregate (arg : List (Int × Nat)) : Option Int :=
  maxKey arg

/-- Semantics of the generated non-nullable Min/Max memory-finalize
bodies: dispatch the call the source generates against the multiset. -/
def heap_call_sem_non_nullable :
    AggregatingCall → List (Int × Nat) → Option (Option Int)
  | .nonNullableMinHeapAggregate, m => some (non_nullable_min_heap_aggregate m)
  | .nonNullableMaxHeapAggregate, m => some (non_nullable_max_heap_aggregate m)
  | _, _ => none

/-- Semantics of the generated nullable Min/Max memory-finalize bodies. -/
def heap_call_sem_nullable :
    AggregatingCall → Int × List (Int × Nat) → Option (Option Int)
  | .nullableMinHeapAggregate, m => some (nullable_min_heap_aggregate m)
  | .nullableMaxHeapAggregate, m => some (nullable_max_heap_aggregate m)
  | _, _ => none

/-- The sliding-window memory-finalize the source derives, applied to a
non-nullable Min/Max multiset memory; `none` when the generated body is
not a non-nullable heap call or the derivation fails. -/
def sliding_finalize_non_nullable (t : TwoPhaseAggregation)
    (m : List (Int × Nat)) : Option (Option Int) :=
  match t.to_aggregating_call with
  | .ok c => heap_call_sem_non_nullable c m
  | .error _ => none

/-- The sliding-window memory-finalize the source derives, applied to a
nullable Min/Max memory. -/
def sliding_finalize_nullable (t : TwoPhaseAggregation)
    (m : Int × List (Int × Nat)) : Option (Option Int) :=
  match t.to_aggregating_call with
  | .ok c => heap_call_sem_nullable c m
  | .error _ => none

/-! ## Memory add/remove call tables (source lines 622-694) -/

/-- The `arroyo_worker::operators::aggregating_window` helpers the
memory-add and memory-remove bodies call. -/
inductive MemoryCall where
  | countAdd
  | nullableSumAdd
  | nonNullableSumAdd
  | nullableHeapAdd
  | nonNullableHeapAdd
  | nullableAverageAdd
  | nonNullableAverageAdd
  | countRemove
  | nullableSumRemove
  | nonNullableSumRemove
  | nullableHeapRemove
  | nonNullableHeapRemove
  | nullableAverageRemove
  | nonNullableAverageRemove
  deriving DecidableEq

/-- Source `TwoPhaseAggregation::memory_add_syn_expr` (source lines
622-660) as the table of generated calls.  The source eagerly computes
`self.aggregate_type()` (line 624), so a failing accumulator type
derivation panics before the match; the CountDistinct arms' own
`todo!()` sits behind that eager `unimplemented!` panic. -/
def TwoPhaseAggregation.memory_add_call (t : TwoPhaseAggregation) :
    Except Failure MemoryCall :=
  let input_nullable := t.incoming_expression.nullable
  match t.aggregate_type with
  | .error e => .error e
  | .ok _expr_type =>
    match t.aggregator, input_nullable with
    | .count, _ => .ok .countAdd
    | .sum, true => .ok .nullableSumAdd
    | .sum, false => .ok .nonNullableSumAdd
    | .min, true => .ok .nullableHeapAdd
    | .min, false => .ok .nonNullableHeapAdd
    | .max, true => .ok .nullableHeapAdd
    | .max, false => .ok .nonNullableHeapAdd
    | .avg, true => .ok .nullableAverageAdd
    | .avg, false => .ok .nonNullableAverageAdd
    | .countDistinct, true => .error .panicTodo
    | .countDistinct, false => .error .panicTodo

/-- Source `TwoPhaseAggregation::memory_remove_syn_expr` (source lines
662-694) as the table of generated calls.  The source eagerly computes
`self.aggregate_type()` (line 664), so a failing accumulator type
derivation panics before the match; the CountDistinct arms' own
`todo!()` sits behind that eager `unimplemented!` panic. -/
def TwoPhaseAggregation.memory_remove_call (t : TwoPhaseAggregation) :
    Except Failure MemoryCall :=
  let input_nullable := t.incoming_expression.nullable
  match t.aggregate_type with
  | .error e => .error e
  | .ok _expr_type =>
    match t.aggregator, input_nullable with
    | .count, true | .count, false => .ok .countRemove
    | .sum, true => .ok .nullableSumRemove
    | .sum, false => .ok .nonNullableSumRemove
    | .min, true | .max, true => .ok .nullableHeapRemove
    | .min, false | .max, false => .ok .nonNullableHeapRemove
    | .avg, true => .ok .nullableAverageRemove
    | .avg, false => .ok .nonNullableAverageRemove
    | .countDistinct, true => .error .panicTodo
    | .countDistinct, false => .error .panicTodo

/-- Whether `bin_syn_expr` (fold, source lines 532-601) produces a body.
The source eagerly computes `self.aggregate_type()` (line 534), so a
failing accumulator type derivation panics before the match; the
CountDistinct arm's `unreachable!("no two phase for count distinct")`
sits behind that eager `unimplemented!` panic. -/
def TwoPhaseAggregation.bin_syn_outcome (t : TwoPhaseAggregation) :
    Except Failure Unit :=
  match t.aggregate_type with
  | .error e => .error e
  | .ok _ =>
    match t.aggregator, t.incoming_expression.nullable with
    | .countDistinct, _ => .error .panicNoTwoPhaseCountDistinct
    | _, _ => .ok ()

/-- Whether `combine_bin_syn_expr` (source lines 484-530) produces a
body.  Unlike the fold and memory derivations, it computes only the
input nullability (line 485), with no eager `aggregate_type()` call, so
its CountDistinct arm — `unreachable!("no two phase for count
distinct")` — genuinely fires. -/
def combine_bin_outcome (a : Aggregator) (n : Bool) : Except Failure Unit :=
  match a, n with
  | .countDistinct, _ => .error .panicNoTwoPhaseCountDistinct
  | _, _ => .ok ()

/-- Whether `bin_aggregating_expression` (tumbling finalize, source
lines 715-730) produces a body.  It computes only the input nullability
(line 716), with no eager `aggregate_type()` call, so its CountDistinct
arms — `todo!()` — genuinely fire. -/
def bin_aggregating_outcome (a : Aggregator) (n : Bool) : Except Failure Unit :=
  match a, n with
  | .countDistinct, _ => .error .panicTodo
  | _, _ => .ok ()

/-- Whether a derivation result is a Rust panic (as opposed to a typed
error returned to the caller, or success). -/
def is_panic {α : Type} : Except Failure α → Bool
  | .error .typedUnsupportedAggregator => false
  | .error _ => true
  | .ok _ => false

/-- Whether a derivation result is the typed unsupported-aggregator
failure. -/
def surfaces_typed_failure {α : Type} : Except Failure α → Bool
  | .error .typedUnsupportedAggregator => true
  | _ => false

/-! ## Projection-level memory operations (source lines 358-416)

The per-aggregate memory bodies are calls into arroyo_worker (not under
src/); the tuple-level wiring below abstracts them as one add and one
remove function per aggregate, over a common carrier. -/

/-- Three-way zip, matching the positional tuple wiring the source
generates (one slot per aggregate). -/
def zipWith3 {α β γ δ : Type} (f : α → β → γ → δ) :
    List α → List β → List γ → List δ
  | a :: as, b :: bs, c :: cs => f a b c :: zipWith3 f as bs cs
  | _, _, _ => []

/-- Source `TwoPhaseAggregateProjection::memory_add_syn_expression` (source
lines 358-392), semantically: on existing memory `Some((i, current))`
produce `(i + 1, ...)` with each aggregate's add applied to
`Some(current.k)` and `bin_value.k`; on empty memory produce `(1, ...)`
with each add applied to `None`. -/
def memory_add_sem {μ β : Type} (adds : List (Option μ → β → μ))
    (current : Option (Nat × List μ)) (bin_value : List β) : Nat × List μ :=
  match current with
  | some (i, cur) => (i + 1, zipWith3 (fun f c b => f (some c) b) adds cur bin_value)
  | none => (1, List.zipWith (fun f b => f none b) adds bin_value)

/-- Source `TwoPhaseAggregateProjection::memory_remove_syn_expression` (source
lines 394-416), semantically: `None` when the live-bin counter is 1,
otherwise the decremented counter with each aggregate's remove applied
and unwrapped (the source's `.unwrap()` is modelled as `Option.get!`). -/
def memory_remove_sem {μ β : Type} [Inhabited μ]
    (removes : List (μ → β → Option μ)) (current : Nat × List μ)
    (bin_value : List β) : Option (Nat × List μ) :=
  if current.1 = 1 then none
  else
    some (current.1 - 1,
      zipWith3 (fun f c b => (f c b).get!) removes current.2 bin_value)

/-! ## Sample values used by the witnesses -/

/-- A concrete aggregate projection (one nullable Sum aggregate, one
grouping column) exercising the conversion. -/
def sampleAggProjection : AggregateProjection :=
  ⟨[(⟨none, "s"⟩, ⟨⟨0, .dataType .int32 true⟩, .sum⟩)],
   [(⟨none, "k"⟩, 7, .dataType .utf8 false)]⟩

/-- The two-phase counterpart of `sampleAggProjection`. -/
def sampleTwoPhaseProjection : TwoPhaseAggregateProjection :=
  ⟨[(⟨none, "s"⟩, ⟨⟨0, .dataType .int32 true⟩, .sum⟩)],
   [(⟨none, "k"⟩, 7, .dataType .utf8 false)]⟩

/-- The output schema both sample projections produce: the Sum output
(int32 promoted to int64, nullable) first, then the grouping column. -/
def sampleOutputStruct : StructDef :=
  StructDef.for_fields
    [⟨"s", none, .dataType .int64 true⟩, ⟨"k", none, .dataType .utf8 false⟩]

/-- A concrete row projection whose first column is window metadata. -/
def sampleProjection : Projection :=
  ⟨[⟨none, "w"⟩, ⟨none, "x"⟩],
   [⟨0, window_type_def⟩, ⟨1, .dataType .int64 false⟩], none⟩

/-! ## Algebra of the generated fold/combine/finalize -/

/-- Folding a value into an existing bin is the same as combining the
bin with the fold of that value into a fresh bin, for every aggregator
and nullability. -/
theorem binFold_some (a : Aggregator) (n : Bool) (b : BinTy a n) (x : InTy n) :
    binFold a n (some b) x = binCombine a n b (binFold a n none x) := by
  cases a with
  | count =>
    cases n with
    | true => rcases x with _ | v <;> simp [binFold, binCombine]
    | false => simp [binFold, binCombine]
  | sum =>
    cases n with
    | true =>
      rcases b with _ | v <;> rcases x with _ | w <;>
        simp [binFold, binCombine, Option.join]
    | false => simp [binFold, binCombine]
  | min =>
    cases n with
    | true =>
      rcases b with _ | v <;> rcases x with _ | w <;>
        simp [binFold, binCombine, Option.join]
    | false => simp [binFold, binCombine]
  | max =>
    cases n with
    | true =>
      rcases b with _ | v <;> rcases x with _ | w <;>
        simp [binFold, binCombine, Option.join]
    | false => simp [binFold, binCombine]
  | avg =>
    cases n with
    | true =>
      rcases b with _ | ⟨c, s⟩ <;> rcases x with _ | v <;>
        simp [binFold, binCombine, Option.join]
    | false =>
      rcases b with ⟨c, s⟩
      simp [binFold, binCombine]
  | countDistinct => cases n <;> rfl

/-- The generated bin-combine is associative for every aggregator and
nullability. -/
theorem binCombine_assoc (a : Aggregator) (n : Bool) (x y z : BinTy a n) :
    binCombine a n (binCombine a n x y) z = binCombine a n x (binCombine a n y z) := by
  cases a with
  | count => cases n <;> simp [binCombine, add_assoc]
  | sum =>
    cases n with
    | true =>
      rcases x with _ | x <;> rcases y with _ | y <;> rcases z with _ | z <;>
        simp [binCombine, add_assoc]
    | false => simp [binCombine, add_assoc]
  | min =>
    cases n with
    | true =>
      rcases x with _ | x <;> rcases y with _ | y <;> rcases z with _ | z <;>
        simp [binCombine, min_assoc]
    | false => simp [binCombine, min_assoc]
  | max =>
    cases n with
    | true =>
      rcases x with _ | x <;> rcases y with _ | y <;> rcases z with _ | z <;>
        simp [binCombine, max_assoc]
    | false => simp [binCombine, max_assoc]
  | avg =>
    cases n with
    | true =>
      rcases x with _ | ⟨xc, xs⟩ <;> rcases y with _ | ⟨yc, ys⟩ <;>
        rcases z with _ | ⟨zc, zs⟩ <;> simp [binCombine, add_assoc]
    | false => simp [binCombine, add_assoc]
  | countDistinct => cases n <;> rfl

theorem foldl_step_some (a : Aggregator) (n : Bool) (B : List (InTy n)) :
    ∀ c : BinTy a n,
      B.foldl (fun b x => some (binFold a n b x)) (some c)
        = combineOpt a n (some c) (foldAll a n B) := by
  induction B with
  | nil => intro c; simp [foldAll, combineOpt]
  | cons x xs ih =>
    intro c
    have h2 : (x :: xs).foldl (fun b y => some (binFold a n b y)) (some c)
        = xs.foldl (fun b y => some (binFold a n b y)) (some (binFold a n (some c) x)) := rfl
    have h1 : foldAll a n (x :: xs)
        = xs.foldl (fun b y => some (binFold a n b y)) (some (binFold a n none x)) := rfl
    rw [h2, binFold_some, ih, h1, ih]
    cases foldAll a n xs <;> simp [combineOpt, binCombine_assoc]

/-- Folding a concatenated batch equals combining the folds of the two
halves, at the bin level. -/
theorem foldAll_append (a : Aggregator) (n : Bool) (A B : List (InTy n)) :
    foldAll a n (A ++ B) = combineOpt a n (foldAll a n A) (foldAll a n B) := by
  have h : foldAll a n (A ++ B)
      = B.foldl (fun b x => some (binFold a n b x)) (foldAll a n A) := by
    simp [foldAll, List.foldl_append]
  rw [h]
  cases hA : foldAll a n A with
  | none => simp [combineOpt, foldAll]
  | some c => rw [foldl_step_some]

/-- C5: for every aggregator other than CountDistinct and every
partition of a batch into sub-batches A and B, finalizing the
bin-combine of the two folded sub-batches equals finalizing the fold of
the whole batch. -/
theorem fold_combine_partition (a : Aggregator) (n : Bool)
    (_h : a ≠ Aggregator.countDistinct) (A B : List (InTy n)) :
    finalizeOpt a n (combineOpt a n (foldAll a n A) (foldAll a n B))
      = finalizeOpt a n (foldAll a n (A ++ B)) := by
  rw [foldAll_append]

/-- Witness for C5 at a concrete split of a nullable Sum batch. -/
theorem fold_combine_partition_witness :
    (finalizeOpt .sum true
        (combineOpt .sum true (foldAll .sum true [some 2, none])
          (foldAll .sum true [some 3]))
      = finalizeOpt .sum true (foldAll .sum true ([some 2, none] ++ [some 3])))
    ∧ finalizeOpt .sum true (foldAll .sum true ([some 2, none] ++ [some 3]))
        = some (some 5) :=
  ⟨fold_combine_partition .sum true (by decide) [some 2, none] [some 3], by decide⟩

/-- C4: SQL null-skipping of the generated bin-fold.  For nullable
input: a null value leaves the bin unchanged, the first non-null value
initializes the bin, and a non-null value combines with a present
accumulator using `+` for Sum, `min`/`max` for Min/Max, and
`(count + 1, sum + value)` for Avg; Count's bin is a plain integer,
incremented by 1 only for non-null inputs when the input is nullable and
unconditionally when it is non-nullable. -/
theorem bin_fold_null_skipping :
    (∀ (cur : Option Int) (v : Int),
        binFold .count true cur none = cur.getD 0
      ∧ binFold .count true cur (some v) = cur.getD 0 + 1)
  ∧ (∀ (cur : Option Int) (v : Int),
        binFold .count false cur v = cur.getD 0 + 1)
  ∧ (∀ (cur : Option (Option Int)) (v : Int),
        binFold .sum true cur none = cur.join
      ∧ (cur.join = none → binFold .sum true cur (some v) = some v)
      ∧ (∀ acc, cur.join = some acc → binFold .sum true cur (some v) = some (acc + v)))
  ∧ (∀ (cur : Option (Option Int)) (v : Int),
        binFold .min true cur none = cur.join
      ∧ (cur.join = none → binFold .min true cur (some v) = some v)
      ∧ (∀ acc, cur.join = some acc →
            binFold .min true cur (some v) = some (min acc v)))
  ∧ (∀ (cur : Option (Option Int)) (v : Int),
        binFold .max true cur none = cur.join
      ∧ (cur.join = none → binFold .max true cur (some v) = some v)
      ∧ (∀ acc, cur.join = some acc →
            binFold .max true cur (some v) = some (max acc v)))
  ∧ (∀ (cur : Option (Option (Int × Int))) (v : Int),
        binFold .avg true cur none = cur.join
      ∧ (cur.join = none → binFold .avg true cur (some v) = some (1, v))
      ∧ (∀ c s, cur.join = some (c, s) →
            binFold .avg true cur (some v) = some (c + 1, s + v))) := by
  refine ⟨?_, ?_, ?_, ?_, ?_, ?_⟩
  · intro cur v
    constructor <;> simp [binFold]
  · intro cur v
    simp [binFold]
  · intro cur v
    refine ⟨?_, ?_, ?_⟩
    · rcases cur with _ | b
      · simp [binFold, Option.join]
      · rcases b with _ | w <;> simp [binFold, Option.join]
    · intro h
      rcases cur with _ | b
      · simp [binFold]
      · rcases b with _ | w
        · simp [binFold, Option.join]
        · exact absurd h (by simp [Option.join])
    · intro acc h
      rcases cur with _ | b
      · exact absurd h (by simp [Option.join])
      · rcases b with _ | w
        · exact absurd h (by simp [Option.join])
        · have hw : w = acc := by simpa [Option.join] using h
          subst hw
          simp [binFold, Option.join]
  · intro cur v
    refine ⟨?_, ?_, ?_⟩
    · rcases cur with _ | b
      · simp [binFold, Option.join]
      · rcases b with _ | w <;> simp [binFold, Option.join]
    · intro h
      rcases cur with _ | b
      · simp [binFold]
      · rcases b with _ | w
        · simp [binFold, Option.join]
        · exact absurd h (by simp [Option.join])
    · intro acc h
      rcases cur with _ | b
      · exact absurd h (by simp [Option.join])
      · rcases b with _ | w
        · exact absurd h (by simp [Option.join])
        · have hw : w = acc := by simpa [Option.join] using h
          subst hw
          simp [binFold, Option.join]
  · intro cur v
    refine ⟨?_, ?_, ?_⟩
    · rcases cur with _ | b
      · simp [binFold, Option.join]
      · rcases b with _ | w <;> simp [binFold, Option.join]
    · intro h
      rcases cur with _ | b
      · simp [binFold]
      · rcases b with _ | w
        · simp [binFold, Option.join]
        · exact absurd h (by simp [Option.join])
    · intro acc h
      rcases cur with _ | b
      · exact absurd h (by simp [Option.join])
      · rcases b with _ | w
        · exact absurd h (by simp [Option.join])
        · have hw : w = acc := by simpa [Option.join] using h
          subst hw
          simp [binFold, Option.join]
  · intro cur v
    refine ⟨?_, ?_, ?_⟩
    · rcases cur with _ | b
      · simp [binFold, Option.join]
      · rcases b with _ | ⟨c, s⟩ <;> simp [binFold, Option.join]
    · intro h
      rcases cur with _ | b
      · simp [binFold]
      · rcases b with _ | ⟨c, s⟩
        · simp [binFold, Option.join]
        · exact absurd h (by simp [Option.join])
    · intro c s h
      rcases cur with _ | b
      · exact absurd h (by simp [Option.join])
      · rcases b with _ | ⟨c', s'⟩
        · exact absurd h (by simp [Option.join])
        · have hw : (c', s') = (c, s) := by simpa [Option.join] using h
          rw [show c' = c from congrArg Prod.fst hw, show s' = s from congrArg Prod.snd hw]
          simp [binFold, Option.join]

/-- Witness for C4 at concrete bins and values. -/
theorem bin_fold_null_skipping_witness :
    binFold .sum true (some none) (some 7) = some 7
  ∧ binFold .sum true (some (some 5)) (some 7) = some (5 + 7)
  ∧ binFold .sum true (some (some 5)) none = some 5 :=
  ⟨(bin_fold_null_skipping.2.2.1 (some none) 7).2.1 rfl,
   ((bin_fold_null_skipping.2.2.1 (some (some 5)) 7).2.2) 5 rfl,
   (bin_fold_null_skipping.2.2.1 (some (some 5)) 7).1⟩

/-- C3 (code bug): the sliding-window memory-finalize dispatch.  The
nullable Min arm returns the least key and both Max arms return the
greatest key, but the non-nullable Min arm (source line 748-750) calls
`non_nullable_max_heap_aggregate` and returns the greatest key: on the
multiset {3, 5} it yields 5 where the least key is 3. -/
theorem min_sliding_finalize_dispatch_bug :
    TwoPhaseAggregation.aggregate_type_def ⟨⟨0, .dataType .int64 false⟩, .min⟩
        = .ok (.dataType .int64 false)
  ∧ TwoPhaseAggregation.to_aggregating_call ⟨⟨0, .dataType .int64 false⟩, .min⟩
        = .ok .nonNullableMaxHeapAggregate
  ∧ sliding_finalize_non_nullable ⟨⟨0, .dataType .int64 false⟩, .min⟩
        [(3, 1), (5, 1)] = some (some 5)
  ∧ minKey [(3, 1), (5, 1)] = some 3
  ∧ sliding_finalize_nullable ⟨⟨0, .dataType .int64 true⟩, .min⟩
        (2, [(3, 1), (5, 1)]) = some (some 3)
  ∧ sliding_finalize_non_nullable ⟨⟨0, .dataType .int64 false⟩, .max⟩
        [(3, 1), (5, 1)] = some (some 5)
  ∧ sliding_finalize_nullable ⟨⟨0, .dataType .int64 true⟩, .max⟩
        (2, [(3, 1), (5, 1)]) = some (some 5) := by
  decide

/-! ## The two-phase gate and the conversion (C1) -/

theorem tryFromAggregates_spec (l : List (Column × AggregationExpression)) :
    ((tryFromAggregates l).isOk = l.all (fun a => a.2.allows_two_phase))
    ∧ ∀ ts, tryFromAggregates l = .ok ts →
        ts = l.map (fun a => (a.1, ⟨a.2.producing_expression, a.2.aggregator⟩)) := by
  induction l with
  | nil =>
    refine ⟨rfl, ?_⟩
    intro ts h
    simp only [tryFromAggregates, Except.ok.injEq] at h
    simp [← h]
  | cons a rest ih =>
    obtain ⟨ih1, ih2⟩ := ih
    rcases a with ⟨c, e⟩
    by_cases hcd : e.aggregator = Aggregator.countDistinct
    · constructor
      · simp [tryFromAggregates, AggregationExpression.try_into, hcd,
          AggregationExpression.allows_two_phase, Except.isOk, Except.toBool]
      · intro ts h
        simp [tryFromAggregates, AggregationExpression.try_into, hcd] at h
    · constructor
      · cases hr : tryFromAggregates rest with
        | error err =>
          rw [hr] at ih1
          have hall : rest.all
              (fun a => a.2.aggregator != Aggregator.countDistinct) = false := by
            simpa [Except.isOk, Except.toBool,
              AggregationExpression.allows_two_phase] using ih1.symm
          simp [tryFromAggregates, AggregationExpression.try_into, hcd, hr,
            AggregationExpression.allows_two_phase, Except.isOk, Except.toBool,
            hall]
        | ok ts =>
          rw [hr] at ih1
          have hall : rest.all
              (fun a => a.2.aggregator != Aggregator.countDistinct) = true := by
            simpa [Except.isOk, Except.toBool,
              AggregationExpression.allows_two_phase] using ih1.symm
          simp [tryFromAggregates, AggregationExpression.try_into, hcd, hr,
            AggregationExpression.allows_two_phase, Except.isOk, Except.toBool,
            hall]
      · intro ts h
        cases hr : tryFromAggregates rest with
        | error err =>
          simp [tryFromAggregates, AggregationExpression.try_into, hcd, hr] at h
        | ok ts' =>
          simp only [tryFromAggregates, AggregationExpression.try_into, hcd,
            if_false, hr, Except.ok.injEq] at h
          subst h
          simp [ih2 ts' hr]

/-- C1: `supports_two_phase()` is false iff at least one aggregate uses
CountDistinct; the conversion to `TwoPhaseAggregateProjection` succeeds
exactly when `supports_two_phase()` holds, and on success carries over
all aggregates and group-by triples unchanged. -/
theorem supports_two_phase_gate (p : AggregateProjection) :
    (p.supports_two_phase = false
        ↔ ∃ a ∈ p.aggregates, a.2.aggregator = Aggregator.countDistinct)
  ∧ (TwoPhaseAggregateProjection.try_from p).isOk = p.supports_two_phase
  ∧ ∀ q, TwoPhaseAggregateProjection.try_from p = .ok q →
      q.aggregates = p.aggregates.map
          (fun a => (a.1, ⟨a.2.producing_expression, a.2.aggregator⟩))
      ∧ q.group_bys = p.group_bys := by
  refine ⟨?_, ?_, ?_⟩
  · simp [AggregateProjection.supports_two_phase, List.all_eq_false,
      AggregationExpression.allows_two_phase]
  · cases hr : tryFromAggregates p.aggregates with
    | error err =>
      have h1 := (tryFromAggregates_spec p.aggregates).1
      rw [hr] at h1
      simp [TwoPhaseAggregateProjection.try_from, hr, Except.isOk,
        Except.toBool, AggregateProjection.supports_two_phase, ← h1]
    | ok ts =>
      have h1 := (tryFromAggregates_spec p.aggregates).1
      rw [hr] at h1
      simp [TwoPhaseAggregateProjection.try_from, hr, Except.isOk,
        Except.toBool, AggregateProjection.supports_two_phase, ← h1]
  · intro q h
    cases hr : tryFromAggregates p.aggregates with
    | error err => simp [TwoPhaseAggregateProjection.try_from, hr] at h
    | ok ts =>
      simp only [TwoPhaseAggregateProjection.try_from, hr, Except.ok.injEq] at h
      subst h
      exact ⟨(tryFromAggregates_spec p.aggregates).2 ts hr, rfl⟩

/-- Witness for C1: the conversion of `sampleAggProjection` succeeds and
carries its aggregates and group-bys over unchanged. -/
theorem supports_two_phase_gate_witness :
    (⟨[(⟨none, "s"⟩, ⟨⟨0, .dataType .int32 true⟩, .sum⟩)],
      [(⟨none, "k"⟩, 7, .dataType .utf8 false)]⟩ :
        TwoPhaseAggregateProjection).aggregates
      = sampleAggProjection.aggregates.map
          (fun a => (a.1, ⟨a.2.producing_expression, a.2.aggregator⟩))
  ∧ (⟨[(⟨none, "s"⟩, ⟨⟨0, .dataType .int32 true⟩, .sum⟩)],
      [(⟨none, "k"⟩, 7, .dataType .utf8 false)]⟩ :
        TwoPhaseAggregateProjection).group_bys
      = sampleAggProjection.group_bys :=
  (supports_two_phase_gate sampleAggProjection).2.2
    ⟨[(⟨none, "s"⟩, ⟨⟨0, .dataType .int32 true⟩, .sum⟩)],
     [(⟨none, "k"⟩, 7, .dataType .utf8 false)]⟩ rfl

/-! ## Output schema ordering (C2) -/

theorem collect_fields_ok {α : Type} (f : α → Except Failure StructField) :
    ∀ (xs : List α) (ys : List StructField), collect_fields f xs = .ok ys →
      ys.length = xs.length
      ∧ ∀ i (h : i < xs.length), f (xs.get ⟨i, h⟩) = .ok (ys.getD i default) := by
  intro xs
  induction xs with
  | nil =>
    intro ys h
    simp only [collect_fields, Except.ok.injEq] at h
    subst h
    exact ⟨rfl, fun i hi => absurd hi (by simp)⟩
  | cons x xs ih =>
    intro ys h
    simp only [collect_fields] at h
    cases hf : f x with
    | error e => rw [hf] at h; simp at h
    | ok fld =>
      rw [hf] at h
      cases hr : collect_fields f xs with
      | error e => rw [hr] at h; simp at h
      | ok rest =>
        rw [hr] at h
        simp only [Except.ok.injEq] at h
        subst h
        obtain ⟨hlen, hall⟩ := ih rest hr
        refine ⟨by simp [hlen], ?_⟩
        intro i hi
        cases i with
        | zero => simpa using hf
        | succ j =>
          have hj : j < xs.length := by simpa using hi
          simpa using hall j hj

theorem output_fields_spec {α : Type} (colOf : α → Column)
    (rt : α → Except Failure TypeDef) (aggs : List α)
    (gbs : List (Column × Nat × TypeDef)) (fields : List StructField)
    (h : collect_fields (fun a =>
        match rt a with
        | .error e => .error e
        | .ok ty => .ok (StructField.mk (colOf a).name (colOf a).relation ty))
      aggs = .ok fields) :
    ((fields ++ gbs.map (fun g => StructField.mk g.1.name g.1.relation g.2.2)).length
        = aggs.length + gbs.length)
    ∧ (∀ i (hi : i < aggs.length), ∃ ty,
        rt (aggs.get ⟨i, hi⟩) = .ok ty
        ∧ (fields ++ gbs.map (fun g => StructField.mk g.1.name g.1.relation g.2.2)).getD
              i default
            = ⟨(colOf (aggs.get ⟨i, hi⟩)).name, (colOf (aggs.get ⟨i, hi⟩)).relation, ty⟩)
    ∧ (∀ j (hj : j < gbs.length),
        (fields ++ gbs.map (fun g => StructField.mk g.1.name g.1.relation g.2.2)).getD
            (aggs.length + j) default
          = ⟨(gbs.get ⟨j, hj⟩).1.name, (gbs.get ⟨j, hj⟩).1.relation,
              (gbs.get ⟨j, hj⟩).2.2⟩) := by
  obtain ⟨hlen, hall⟩ := collect_fields_ok _ aggs fields h
  refine ⟨by simp [hlen], ?_, ?_⟩
  · intro i hi
    have hfi := hall i hi
    cases hrt : rt (aggs.get ⟨i, hi⟩) with
    | error e => rw [hrt] at hfi; simp at hfi
    | ok ty =>
      rw [hrt] at hfi
      simp only [Except.ok.injEq] at hfi
      refine ⟨ty, rfl, ?_⟩
      rw [List.getD_append _ _ _ _ (by omega)]
      exact hfi.symm
  · intro j hj
    rw [List.getD_append_right _ _ _ _ (by omega), hlen,
      Nat.add_sub_cancel_left]
    rw [List.getD_eq_getElem _ _ (by simpa using hj)]
    simp

/-- C2: for both projection kinds, the output schema is exactly one
field per aggregate output (name and relation from its column, type the
aggregate's return type) followed by one field per grouping output (name
and relation from its column, the supplied type): aggregates first, then
groups, each block in input order. -/
theorem output_struct_ordering (p : AggregateProjection)
    (q : TwoPhaseAggregateProjection) (s s' : StructDef)
    (hs : p.output_struct = .ok s) (hs' : q.output_struct = .ok s') :
    (s.fields.length = p.aggregates.length + p.group_bys.length
      ∧ (∀ i (hi : i < p.aggregates.length), ∃ ty,
          (p.aggregates.get ⟨i, hi⟩).2.return_type = .ok ty
          ∧ s.fields.getD i default
              = ⟨(p.aggregates.get ⟨i, hi⟩).1.name,
                  (p.aggregates.get ⟨i, hi⟩).1.relation, ty⟩)
      ∧ (∀ j (hj : j < p.group_bys.length),
          s.fields.getD (p.aggregates.length + j) default
            = ⟨(p.group_bys.get ⟨j, hj⟩).1.name,
                (p.group_bys.get ⟨j, hj⟩).1.relation,
                (p.group_bys.get ⟨j, hj⟩).2.2⟩))
  ∧ (s'.fields.length = q.aggregates.length + q.group_bys.length
      ∧ (∀ i (hi : i < q.aggregates.length), ∃ ty,
          (q.aggregates.get ⟨i, hi⟩).2.return_type = .ok ty
          ∧ s'.fields.getD i default
              = ⟨(q.aggregates.get ⟨i, hi⟩).1.name,
                  (q.aggregates.get ⟨i, hi⟩).1.relation, ty⟩)
      ∧ (∀ j (hj : j < q.group_bys.length),
          s'.fields.getD (q.aggregates.length + j) default
            = ⟨(q.group_bys.get ⟨j, hj⟩).1.name,
                (q.group_bys.get ⟨j, hj⟩).1.relation,
                (q.group_bys.get ⟨j, hj⟩).2.2⟩)) := by
  constructor
  · cases hc : collect_fields (fun a =>
        match a.2.return_type with
        | .error e => .error e
        | .ok field_type => .ok (StructField.mk a.1.name a.1.relation field_type))
      p.aggregates with
    | error e =>
      rw [AggregateProjection.output_struct, hc] at hs
      simp at hs
    | ok fields =>
      rw [AggregateProjection.output_struct, hc] at hs
      simp only [Except.ok.injEq] at hs
      subst hs
      exact output_fields_spec Prod.fst (fun a => a.2.return_type)
        p.aggregates p.group_bys fields hc
  · cases hc : collect_fields (fun a =>
        match a.2.return_type with
        | .error e => .error e
        | .ok field_type => .ok (StructField.mk a.1.name a.1.relation field_type))
      q.aggregates with
    | error e =>
      rw [TwoPhaseAggregateProjection.output_struct, hc] at hs'
      simp at hs'
    | ok fields =>
      rw [TwoPhaseAggregateProjection.output_struct, hc] at hs'
      simp only [Except.ok.injEq] at hs'
      subst hs'
      exact output_fields_spec Prod.fst (fun a => a.2.return_type)
        q.aggregates q.group_bys fields hc

/-! ## Derived bin and return types (C6, C7) -/

/-- C6: the derived bin type is a plain 64-bit integer for Count
regardless of nullability; the plain accumulator type for Sum/Min/Max
over non-nullable input and an optional accumulator type over nullable
input; and a (count, sum) pair for Avg over non-nullable input,
optionally wrapped over nullable input. -/
theorem bin_type_shapes (e : Expression) (d : DataType) (n : Bool)
    (he : e.retType = .dataType d n) :
    (TwoPhaseAggregation.bin_type ⟨e, .count⟩ = .ok (.prim .int64))
  ∧ (∀ s, sum_return_type d = some s →
      TwoPhaseAggregation.bin_type ⟨e, .sum⟩
        = .ok (if n then .option (.prim s) else .prim s))
  ∧ (TwoPhaseAggregation.bin_type ⟨e, .min⟩
        = .ok (if n then .option (.prim d) else .prim d))
  ∧ (TwoPhaseAggregation.bin_type ⟨e, .max⟩
        = .ok (if n then .option (.prim d) else .prim d))
  ∧ (∀ s, sum_return_type d = some s →
      TwoPhaseAggregation.bin_type ⟨e, .avg⟩
        = .ok (if n then .option (.tuple2 (.prim .int64) (.prim s))
            else .tuple2 (.prim .int64) (.prim s))) := by
  refine ⟨?_, ?_, ?_, ?_, ?_⟩
  · cases n <;>
      simp [TwoPhaseAggregation.bin_type, TwoPhaseAggregation.aggregate_type,
        TwoPhaseAggregation.aggregate_type_def, Expression.return_type,
        Expression.nullable, he, TypeDef.isNullable, TypeDef.rustType]
  · intro s hs
    cases n <;>
      simp [TwoPhaseAggregation.bin_type, TwoPhaseAggregation.aggregate_type,
        TwoPhaseAggregation.aggregate_type_def, Expression.return_type,
        Expression.nullable, he, hs, TypeDef.isNullable, TypeDef.rustType]
  · cases n <;>
      simp [TwoPhaseAggregation.bin_type, TwoPhaseAggregation.aggregate_type,
        TwoPhaseAggregation.aggregate_type_def, Expression.return_type,
        Expression.nullable, he, TypeDef.isNullable, TypeDef.rustType]
  · cases n <;>
      simp [TwoPhaseAggregation.bin_type, TwoPhaseAggregation.aggregate_type,
        TwoPhaseAggregation.aggregate_type_def, Expression.return_type,
        Expression.nullable, he, TypeDef.isNullable, TypeDef.rustType]
  · intro s hs
    cases n <;>
      simp [TwoPhaseAggregation.bin_type, TwoPhaseAggregation.aggregate_type,
        TwoPhaseAggregation.aggregate_type_def, Expression.return_type,
        Expression.nullable, he, hs, TypeDef.isNullable, TypeDef.rustType]

/-- Witness for C6: Sum over a nullable 32-bit integer input derives the
optional widened accumulator bin. -/
theorem bin_type_shapes_witness :
    TwoPhaseAggregation.bin_type ⟨⟨0, .dataType .int32 true⟩, .sum⟩
      = .ok (.option (.prim .int64)) := by
  have h := (bin_type_shapes ⟨0, .dataType .int32 true⟩ .int32 true rfl).2.1 .int64 rfl
  simpa using h

/-- C7: the derived return type is 64-bit integer, never nullable, for
Count; the sum-promoted type with the input's nullability for Sum;
exactly the input's type and nullability for Min and Max; and the
avg-promoted type with the input's nullability for Avg. -/
theorem return_type_table (e : Expression) (d : DataType) (n : Bool)
    (he : e.retType = .dataType d n) :
    (TwoPhaseAggregation.return_type ⟨e, .count⟩ = .ok (.dataType .int64 false))
  ∧ (∀ s, sum_return_type d = some s →
      TwoPhaseAggregation.return_type ⟨e, .sum⟩ = .ok (.dataType s n))
  ∧ (TwoPhaseAggregation.return_type ⟨e, .min⟩ = .ok (.dataType d n))
  ∧ (TwoPhaseAggregation.return_type ⟨e, .max⟩ = .ok (.dataType d n))
  ∧ (∀ r, avg_return_type d = some r →
      TwoPhaseAggregation.return_type ⟨e, .avg⟩ = .ok (.dataType r n)) := by
  refine ⟨rfl, ?_, ?_, ?_, ?_⟩
  · intro s hs
    simp [TwoPhaseAggregation.return_type, TwoPhaseAggregation.aggregate_type_def,
      Expression.return_type, Expression.nullable, he, hs, TypeDef.isNullable,
      TypeDef.with_nullity]
  · simp [TwoPhaseAggregation.return_type, Expression.return_type, he]
  · simp [TwoPhaseAggregation.return_type, Expression.return_type, he]
  · intro r hr
    simp [TwoPhaseAggregation.return_type, Expression.return_type, he, hr]

/-- Witness for C7: Sum over a nullable 32-bit integer input returns a
nullable 64-bit integer; Min over it returns the input type unchanged. -/
theorem return_type_table_witness :
    TwoPhaseAggregation.return_type ⟨⟨0, .dataType .int32 true⟩, .sum⟩
        = .ok (.dataType .int64 true)
  ∧ TwoPhaseAggregation.return_type ⟨⟨0, .dataType .int32 true⟩, .min⟩
        = .ok (.dataType .int32 true) :=
  ⟨(return_type_table ⟨0, .dataType .int32 true⟩ .int32 true rfl).2.1 .int64 rfl,
   (return_type_table ⟨0, .dataType .int32 true⟩ .int32 true rfl).2.2.1⟩

/-! ## Memory counter semantics (C8) -/

theorem zipWith3_get_bang_of_map_some {μ β : Type} [Inhabited μ] :
    ∀ (removes : List (μ → β → Option μ)) (m : List μ) (bin : List β)
      (subs : List μ),
      zipWith3 (fun f x b => f x b) removes m bin = subs.map some →
      zipWith3 (fun f x b => (f x b).get!) removes m bin = subs := by
  intro removes
  induction removes with
  | nil =>
    intro m bin subs h
    cases m <;> cases bin <;> cases subs <;> simp_all [zipWith3]
  | cons f fs ih =>
    intro m bin subs h
    cases m with
    | nil => cases bin <;> cases subs <;> simp_all [zipWith3]
    | cons x xs =>
      cases bin with
      | nil => cases subs <;> simp_all [zipWith3]
      | cons b bs =>
        cases subs with
        | nil => simp_all [zipWith3]
        | cons s ss =>
          simp only [zipWith3, List.map_cons, List.cons.injEq] at h
          obtain ⟨h1, h2⟩ := h
          simp only [zipWith3, List.cons.injEq]
          exact ⟨by rw [h1]; rfl, ih xs bs ss h2⟩

/-- C8: memory-add increments the live-bin counter, initializing it to 1
(and the accumulator tuple) when memory was empty, and returns the new
counter paired with the updated accumulators; memory-remove returns
`None` exactly when the counter would reach zero and otherwise the
decremented counter with each aggregate's contribution subtracted. -/
theorem memory_counter_semantics {μ β : Type} [Inhabited μ]
    (adds : List (Option μ → β → μ)) (removes : List (μ → β → Option μ))
    (bin_value : List β) :
    (memory_add_sem adds none bin_value
        = (1, List.zipWith (fun f b => f none b) adds bin_value))
  ∧ (∀ (c : Nat) (m : List μ),
        memory_add_sem adds (some (c, m)) bin_value
          = (c + 1, zipWith3 (fun f x b => f (some x) b) adds m bin_value))
  ∧ (∀ (c : Nat) (m : List μ), 1 ≤ c →
        ((memory_remove_sem removes (c, m) bin_value = none) ↔ c = 1))
  ∧ (∀ (c : Nat) (m : List μ) (subs : List μ),
        zipWith3 (fun f x b => f x b) removes m bin_value = subs.map some →
        1 < c →
        memory_remove_sem removes (c, m) bin_value = some (c - 1, subs)) := by
  refine ⟨rfl, fun c m => rfl, ?_, ?_⟩
  · intro c m _
    by_cases h1 : c = 1
    · simp [memory_remove_sem, h1]
    · simp [memory_remove_sem, h1]
  · intro c m subs hsubs hc
    have h1 : ¬c = 1 := by omega
    simp only [memory_remove_sem, h1, if_false]
    rw [zipWith3_get_bang_of_map_some removes m bin_value subs hsubs]

/-- Witness for C8: one subtracting aggregate; the counter hits zero at
1 and otherwise decrements with the contribution subtracted. -/
theorem memory_counter_semantics_witness :
    ((memory_remove_sem ([fun x b => some (x - b)] : List (Int → Int → Option Int))
        (1, [10]) [5] = none) ↔ (1 : Nat) = 1)
  ∧ memory_remove_sem ([fun x b => some (x - b)] : List (Int → Int → Option Int))
      (3, [10]) [5] = some (2, [5]) :=
  ⟨(memory_counter_semantics [] [fun x b => some (x - b)] [5]).2.2.1 1 [10]
      (by decide),
   (memory_counter_semantics [] [fun x b => some (x - b)] [5]).2.2.2 3 [10] [5]
      (by decide) (by decide)⟩

/-! ## CountDistinct failure surfacing (C9) -/

/-- C9 counterexample: the memory-add derivation for a CountDistinct
aggregate over a nullable 64-bit integer input panics (the eager
`self.aggregate_type()` hits `unimplemented!` in `aggregate_type_def`);
it does not surface the typed unsupported-aggregator failure the claim
asserts for every two-phase derivation. -/
theorem count_distinct_memory_add_panics :
    TwoPhaseAggregation.memory_add_call
        ⟨⟨0, .dataType .int64 true⟩, .countDistinct⟩
      = .error .panicUnimplemented
  ∧ surfaces_typed_failure
      (TwoPhaseAggregation.memory_add_call
        ⟨⟨0, .dataType .int64 true⟩, .countDistinct⟩) = false :=
  ⟨rfl, rfl⟩

/-- C9 (amended): for a CountDistinct aggregate the typed
unsupported-aggregator failure is surfaced by the fallible conversion
into the two-phase type; the two-phase derivations themselves, if
invoked with CountDistinct, fail with explicit panics — the eager
accumulator-type derivation's `unimplemented!` for bin type, memory
type, fold, memory-add, memory-remove and the sliding finalize, and the
arms' own `unreachable!` / `todo!` for bin-combine and the tumbling
finalize — never a typed failure and never a silent fallback to
one-phase results. -/
theorem count_distinct_failure_surfacing :
    (∀ e : Expression,
        AggregationExpression.try_into ⟨e, .countDistinct⟩
          = .error .typedUnsupportedAggregator)
  ∧ (∀ t : TwoPhaseAggregation, t.aggregator = .countDistinct →
        is_panic t.bin_type = true
      ∧ is_panic t.mem_type = true
      ∧ is_panic t.bin_syn_outcome = true
      ∧ is_panic t.memory_add_call = true
      ∧ is_panic t.memory_remove_call = true
      ∧ is_panic t.to_aggregating_call = true)
  ∧ (∀ n : Bool,
        combine_bin_outcome .countDistinct n
          = .error .panicNoTwoPhaseCountDistinct
      ∧ bin_aggregating_outcome .countDistinct n = .error .panicTodo) := by
  refine ⟨?_, ?_, ?_⟩
  · intro e
    simp [AggregationExpression.try_into]
  · intro t ht
    rcases t with ⟨e, a⟩
    simp only at ht
    subst ht
    cases hre : e.retType with
    | dataType d nn =>
      refine ⟨?_, ?_, ?_, ?_, ?_, ?_⟩ <;>
        simp [TwoPhaseAggregation.bin_type, TwoPhaseAggregation.mem_type,
          TwoPhaseAggregation.bin_syn_outcome,
          TwoPhaseAggregation.memory_add_call,
          TwoPhaseAggregation.memory_remove_call,
          TwoPhaseAggregation.to_aggregating_call,
          TwoPhaseAggregation.aggregate_type,
          TwoPhaseAggregation.aggregate_type_def, Expression.return_type, hre,
          is_panic]
    | structDef nm fs nn =>
      refine ⟨?_, ?_, ?_, ?_, ?_, ?_⟩ <;>
        simp [TwoPhaseAggregation.bin_type, TwoPhaseAggregation.mem_type,
          TwoPhaseAggregation.bin_syn_outcome,
          TwoPhaseAggregation.memory_add_call,
          TwoPhaseAggregation.memory_remove_call,
          TwoPhaseAggregation.to_aggregating_call,
          TwoPhaseAggregation.aggregate_type,
          TwoPhaseAggregation.aggregate_type_def, Expression.return_type, hre,
          is_panic]
  · intro n
    cases n <;> exact ⟨rfl, rfl⟩

/-- Witness for C9 (amended) at a concrete CountDistinct aggregate. -/
theorem count_distinct_failure_surfacing_witness :
    AggregationExpression.try_into ⟨⟨0, .dataType .int64 false⟩, .countDistinct⟩
        = .error .typedUnsupportedAggregator
  ∧ is_panic (TwoPhaseAggregation.memory_add_call
        ⟨⟨0, .dataType .int64 false⟩, .countDistinct⟩) = true :=
  ⟨count_distinct_failure_surfacing.1 ⟨0, .dataType .int64 false⟩,
   (count_distinct_failure_surfacing.2.1
      ⟨⟨0, .dataType .int64 false⟩, .countDistinct⟩ rfl).2.2.2.1⟩

/-! ## Window-column stripping (C10) -/

theorem without_window_pairs_aux :
    ∀ (comps : List Expression) (k : Nat) (allNames : List Column),
      k + comps.length ≤ allNames.length →
      (List.enumFrom k comps).filterMap (fun ic =>
          if window_type_def = ic.2.return_type then none
          else some (allNames.getD ic.1 default, ic.2))
        = ((allNames.drop k).zip comps).filter
            (fun nc => !decide (window_type_def = nc.2.return_type)) := by
  intro comps
  induction comps with
  | nil => intro k allNames _; simp
  | cons c cs ih =>
    intro k allNames h
    have hlen : k + (cs.length + 1) ≤ allNames.length := by simpa using h
    have hk : k < allNames.length := by omega
    have hdrop : allNames.drop k = allNames[k] :: allNames.drop (k + 1) :=
      (List.getElem_cons_drop allNames k hk).symm
    rw [List.enumFrom_cons, hdrop]
    have htail := ih (k + 1) allNames (by omega)
    by_cases hw : window_type_def = c.return_type
    · have hhead : (fun ic => if window_type_def = ic.2.return_type then none
          else some (allNames.getD ic.1 default, ic.2)) ((k, c) : Nat × Expression)
          = none := by
        simp [hw]
      rw [@List.filterMap_cons_none _ _ (fun ic =>
            if window_type_def = ic.2.return_type then none
            else some (allNames.getD ic.1 default, ic.2)) (k, c)
          (List.enumFrom (k + 1) cs) hhead,
        htail, List.zip_cons_cons, List.filter_cons]
      simp [hw]
    · have hgd : allNames.getD k default = allNames[k] :=
        List.getD_eq_getElem allNames default hk
      have hhead : (fun ic => if window_type_def = ic.2.return_type then none
          else some (allNames.getD ic.1 default, ic.2)) ((k, c) : Nat × Expression)
          = some (allNames[k], c) := by
        rw [← hgd]
        simp [hw]
      rw [@List.filterMap_cons_some _ _ (fun ic =>
            if window_type_def = ic.2.return_type then none
            else some (allNames.getD ic.1 default, ic.2)) (k, c)
          (List.enumFrom (k + 1) cs) (allNames[k], c) hhead,
        htail, List.zip_cons_cons, List.filter_cons]
      simp [hw]

/-- C10: `without_window` keeps exactly the (name, computation) pairs
whose computation's return type differs from the reserved window marker
type, in their original order and pairing, with the format unchanged. -/
theorem without_window_spec (p : Projection)
    (h : p.field_names.length = p.field_computations.length) :
    (p.without_window.field_names.zip p.without_window.field_computations
        = (p.field_names.zip p.field_computations).filter
            (fun nc => !decide (window_type_def = nc.2.return_type)))
  ∧ p.without_window.format = p.format
  ∧ p.without_window.field_names.length
      = p.without_window.field_computations.length := by
  refine ⟨?_, rfl, ?_⟩
  · simp only [Projection.without_window]
    rw [List.zip_map']
    have haux := without_window_pairs_aux p.field_computations 0 p.field_names
      (by omega)
    simp only [List.drop_zero] at haux
    have henum : p.field_computations.enum
        = List.enumFrom 0 p.field_computations := rfl
    simp only [Prod.mk.eta, henum]
    rw [haux]
    exact List.map_id' _
  · simp [Projection.without_window]

/-- Witness for C10: the window column is stripped, the ordinary column
survives with its computation, and the format is unchanged. -/
theorem without_window_spec_witness :
    sampleProjection.without_window.field_names.zip
        sampleProjection.without_window.field_computations
      = [(⟨none, "x"⟩, ⟨1, .dataType .int64 false⟩)]
  ∧ sampleProjection.without_window.format = none := by
  have h := without_window_spec sampleProjection (by decide)
  refine ⟨?_, h.2.1⟩
  rw [h.1]
  decide

/-- Witness for C2: the sample projections' schemas have one aggregate
field followed by one grouping field. -/
theorem output_struct_ordering_witness :
    sampleOutputStruct.fields.length
        = sampleAggProjection.aggregates.length
          + sampleAggProjection.group_bys.length
  ∧ sampleOutputStruct.fields.length
        = sampleTwoPhaseProjection.aggregates.length
          + sampleTwoPhaseProjection.group_bys.length :=
  ⟨(output_struct_ordering sampleAggProjection sampleTwoPhaseProjection
      sampleOutputStruct sampleOutputStruct rfl rfl).1.1,
   (output_struct_ordering sampleAggProjection sampleTwoPhaseProjection
      sampleOutputStruct sampleOutputStruct rfl rfl).2.1⟩

end Arroyo
